import Mathlib

/-!
Verification of the proto-IDL compiler front end (rust-protobufjs).

This file shallowly embeds the data model and the algorithms of the
repository's core pipeline — the namespace trie and its type-reference
resolver (src/namespace.rs, src/message.rs), the character-level tokenizer
(src/tokenizer.rs, src/iterator_with_position.rs, src/position.rs),
the import-statement parser (src/parser.rs), and the multi-file driver
(src/parser.rs) — and proves or refutes the specification's claims about
them.  Rust `HashMap`s are embedded as association lists with
insert-replaces semantics, `HashSet<String>` as a duplicate-free list,
`RefCell<String>` mutation as pure rewriting, and `usize` as `Nat`.
-/

namespace Pbjs

/-- Association-list lookup, mirroring `HashMap::get`. -/
def assocGet {α : Type} : List (String × α) → String → Option α
  | [], _ => none
  | (k, v) :: rest, key => if k = key then some v else assocGet rest key

/-- Association-list insert, mirroring `HashMap::insert` (replaces the
existing binding for the key, otherwise appends). -/
def assocInsert {α : Type} : List (String × α) → String → α → List (String × α)
  | [], key, v => [(key, v)]
  | (k, w) :: rest, key, v =>
    if k = key then (k, v) :: rest else (k, w) :: assocInsert rest key v

/-- Mirrors `HashMap::extend`: inserts every binding of `ext` into `base`,
the extending side winning on a key collision. -/
def extendAssoc {α : Type} (base ext : List (String × α)) : List (String × α) :=
  ext.foldl (fun acc kv => assocInsert acc kv.1 kv.2) base

/-- Helper for `splitDot`; `acc` holds the current segment reversed. -/
def splitDotGo (acc : List Char) : List Char → List String
  | [] => [String.mk acc.reverse]
  | c :: rest =>
    if c = '.' then String.mk acc.reverse :: splitDotGo [] rest
    else splitDotGo (c :: acc) rest

/-- Mirrors Rust `str::split('.')` as used by `IntoPath::to_path` in
src/namespace.rs: splits on every dot, keeping empty segments, and maps
the empty string to a single empty segment. -/
def toPath (s : String) : List String := splitDotGo [] s.toList

/-- Mirrors `IntoPath::to_absolute_path` (src/namespace.rs):
`format!(".{}.{}", path.join("."), type_name)` — note the leading dot. -/
def toAbsolutePath (path : List String) (typeName : String) : String :=
  "." ++ String.intercalate "." path ++ "." ++ typeName

/-- The scalar type set `SCALARS` (src/message.rs and src/scalar.rs, the
two copies list the same fifteen names). -/
def SCALARS : List String :=
  ["double", "float",
   "int32", "int64", "uint32", "uint64", "sint32", "sint64",
   "fixed32", "fixed64", "sfixed32", "sfixed64",
   "bool", "string", "bytes"]

/-- `FieldRule` (src/message.rs). -/
inductive FieldRule where
  | repeated
  | optional
  | required
deriving Repr, DecidableEq

/-- `Field` (src/message.rs).  The Rust `type_name: RefCell<String>` cell
is embedded as a plain string; the resolver's in-place mutation becomes a
pure rewrite. -/
structure Field where
  id : Nat
  keyType : Option String
  typeName : String
  rule : Option FieldRule
deriving Repr, DecidableEq

/-- `Enum` (src/message.rs): a name-to-value map. -/
structure Enum where
  values : List (String × Int)
deriving Repr, DecidableEq

/-- `Oneof` (src/message.rs): the member field names. -/
structure Oneof where
  values : List String
deriving Repr, DecidableEq

/-- `Rpc` (src/service.rs).  `request_type`/`response_type` are
`RefCell<String>` in Rust, embedded as plain strings. -/
structure Rpc where
  requestType : String
  requestStream : Bool
  responseType : String
  responseStream : Bool
deriving Repr, DecidableEq

/-- `Service` (src/service.rs): a name-to-rpc map. -/
structure Service where
  methods : List (String × Rpc)
deriving Repr, DecidableEq

/-- `Type` and `Message` (src/message.rs) fused into one inductive:
`msg fields oneofs nested` is `Type::Message` of a `Message` with those
three maps, `enum e` is `Type::Enum`. -/
inductive Ty where
  | enum (e : Enum)
  | msg (fields : List (String × Field)) (oneofs : List (String × Oneof))
        (nested : List (String × Ty))

/-- `Type::get` (src/message.rs): look a name up among a message's nested
types; enums have none. -/
def Ty.get : Ty → String → Option Ty
  | .enum _, _ => none
  | .msg _ _ nested, key => assocGet nested key

/-- The nested-message walk inside `Namespace::resolve_path`
(src/namespace.rs): follow the remaining path segments through
`found_type.get`, succeeding when the segments are exhausted. -/
def tyWalk : Ty → List String → Bool
  | _, [] => true
  | t, n :: rest =>
    match t.get n with
    | some t2 => tyWalk t2 rest
    | none => false

/-- Extract a field's type name from a message, for stating theorems. -/
def Ty.fieldType : Ty → String → Option String
  | .enum _, _ => none
  | .msg fields _ _, name => (assocGet fields name).map Field.typeName

/-- Extract the enum values of a type, for stating theorems. -/
def Ty.enumValues : Ty → Option (List (String × Int))
  | .enum e => some e.values
  | .msg _ _ _ => none

mutual
/-- The per-message half of rewriting every field's `type_name`: the
resolver (src/namespace.rs `normalize_types`) visits every message at any
nesting depth via `Message::messages_iter` and mutates each field's
`type_name` cell; rebuilding with `f` applied to every field's type name
at every depth is the pure equivalent. -/
def Ty.mapFieldTypes (f : String → String) : Ty → Ty
  | .enum e => .enum e
  | .msg fields oneofs nested =>
    .msg (fields.map fun kv => (kv.1, { kv.2 with typeName := f kv.2.typeName }))
         oneofs (mapFieldTypesList f nested)

/-- Pointwise `Ty.mapFieldTypes` over a nested-type map. -/
def mapFieldTypesList (f : String → String) : List (String × Ty) → List (String × Ty)
  | [] => []
  | (k, t) :: rest => (k, t.mapFieldTypes f) :: mapFieldTypesList f rest
end

/-- `Namespace` (src/namespace.rs).  The write-only raw `parent` pointer is
omitted: none of the embedded operations read it. -/
inductive Namespace where
  | mk (path : List String) (imports : List String)
       (nested : List (String × Namespace))
       (services : List (String × Service))
       (types : List (String × Ty))

/-- The namespace's dotted package path segments. -/
def Namespace.path : Namespace → List String
  | .mk p _ _ _ _ => p

/-- The namespace's import set (`HashSet<String>` in src/namespace.rs). -/
def Namespace.imports : Namespace → List String
  | .mk _ i _ _ _ => i

/-- The nested child namespaces, one level per path segment. -/
def Namespace.nested : Namespace → List (String × Namespace)
  | .mk _ _ n _ _ => n

/-- The services declared in this namespace. -/
def Namespace.services : Namespace → List (String × Service)
  | .mk _ _ _ s _ => s

/-- The types (messages and enums) declared in this namespace. -/
def Namespace.types : Namespace → List (String × Ty)
  | .mk _ _ _ _ t => t

/-- `Namespace::empty` (src/namespace.rs): an empty path and no content. -/
def Namespace.empty : Namespace := .mk [] [] [] [] []

/-- `Namespace::add_import` (src/namespace.rs): `HashSet::insert`. -/
def Namespace.addImport : Namespace → String → Namespace
  | .mk p i n s t, imp =>
    .mk p (if i.contains imp then i else i ++ [imp]) n s t

/-- The walking core of `Namespace::append_child` (src/namespace.rs): the
child is destructured into its `path`, `types` and `services` (its nested
namespaces and imports are not taken), the trie is walked along `path`
with `nested.entry(key).or_insert(Namespace::empty())`, and the target
node's `types` and `services` are extended. -/
def appendAt : Namespace → List String → List (String × Ty) → List (String × Service) → Namespace
  | .mk p i n s t, [], ctypes, cservices =>
    .mk p i n (extendAssoc s cservices) (extendAssoc t ctypes)
  | .mk p i n s t, key :: rest, ctypes, cservices =>
    let sub := match assocGet n key with
      | some ns => ns
      | none => Namespace.empty
    .mk p i (assocInsert n key (appendAt sub rest ctypes cservices)) s t

/-- `Namespace::append_child` (src/namespace.rs). -/
def Namespace.appendChild (self child : Namespace) : Namespace :=
  appendAt self child.path child.types child.services

/-- The loop of `Namespace::child` (src/namespace.rs): follow nested
namespaces segment by segment. -/
def descend : Namespace → List String → Option Namespace
  | ns, [] => some ns
  | ns, k :: rest =>
    match assocGet ns.nested k with
    | some c => descend c rest
    | none => none

/-- `Namespace::child` (src/namespace.rs): split the path on dots and
follow the nested tries. -/
def Namespace.child (self : Namespace) (path : String) : Option Namespace :=
  descend self (toPath path)

/-- The zip loop of `Namespace::relative_path_index` (src/namespace.rs):
counts how many further object segments keep matching the namespace
segments, stopping at the first mismatch or at either end. -/
def countMatching : List String → List String → Nat
  | a :: as, b :: bs => if a = b then countMatching as bs + 1 else 0
  | _, _ => 0

/-- `Namespace::relative_path_index` (src/namespace.rs): the first object
segment is searched for inside the namespace's own path; if it occurs at
position n, one plus the number of following pointwise-matching segments
is returned, otherwise zero. -/
def Namespace.relativePathIndex (self : Namespace) (objectType : List String) : Nat :=
  match objectType with
  | [] => 0
  | first :: rest =>
    match self.path.findIdx? (· = first) with
    | some n => 1 + countMatching (self.path.drop (n + 1)) rest
    | none => 0

/-- `Namespace::resolve_path` (src/namespace.rs): drop the relative-path
index, look the first remaining segment up in this namespace's own type
map, walk the rest through nested message types, and return the joined
relative path on success. -/
def Namespace.resolvePath (self : Namespace) (path : List String) : Option String :=
  let index := self.relativePathIndex path
  match path.drop index with
  | [] => none
  | name :: rest =>
    match assocGet self.types name with
    | none => none
    | some t =>
      if tyWalk t rest then some (String.intercalate "." (path.drop index))
      else none

/-- The per-reference body of `Namespace::normalize_types`
(src/namespace.rs): scalar names are skipped; otherwise the namespace's
own `resolve_path` is tried first (a hit is kept relative for message
fields, `resolve_local = true`, and made absolute for rpc types,
`resolve_local = false`); on a miss each dependency namespace is tried in
order and a hit becomes that dependency's absolute path; when everything
misses the code prints a diagnostic and leaves the name unchanged. -/
def normalizeTypeName (self : Namespace) (deps : List Namespace)
    (resolveLocal : Bool) (typeName : String) : String :=
  if SCALARS.contains typeName then typeName
  else
    let path := toPath typeName
    match self.resolvePath path with
    | some p => if resolveLocal then p else toAbsolutePath self.path p
    | none =>
      match deps.findSome? (fun ns =>
          (ns.resolvePath path).map fun p => toAbsolutePath ns.path p) with
      | some r => r
      | none => typeName

/-- Rewrite an rpc's request and response types, the service half of
`normalize_types`. -/
def Rpc.mapTypes (f : String → String) (r : Rpc) : Rpc :=
  { r with requestType := f r.requestType, responseType := f r.responseType }

/-- `Namespace::normalize_types` (src/namespace.rs) as a pure rewrite:
every rpc request/response type of this namespace's services is passed
through `normalizeTypeName` with `resolve_local = false`, and every field
type of every message (at any nesting depth) of this namespace's types
with `resolve_local = true`.  Nested namespaces are not visited, and
resolution never fails: unresolved names stay in place. -/
def Namespace.normalizeTypes (self : Namespace) (deps : List Namespace) : Namespace :=
  match self with
  | .mk path imports nested services types =>
    .mk path imports nested
      (services.map fun kv =>
        (kv.1, Service.mk (kv.2.methods.map fun m =>
          (m.1, m.2.mapTypes (normalizeTypeName self deps false)))))
      (mapFieldTypesList (normalizeTypeName self deps true) types)

/-- Extract an rpc's request type from a namespace, for stating theorems. -/
def Namespace.rpcRequest (self : Namespace) (svc rpc : String) : Option String :=
  (assocGet self.services svc).bind fun s => (assocGet s.methods rpc).map Rpc.requestType

/-- Extract an rpc's response type from a namespace, for stating theorems. -/
def Namespace.rpcResponse (self : Namespace) (svc rpc : String) : Option String :=
  (assocGet self.services svc).bind fun s => (assocGet s.methods rpc).map Rpc.responseType

/-- A plain singular field with the given type name, used in fixtures. -/
def fld (t : String) : Field := { id := 1, keyType := none, typeName := t, rule := none }

/-- A namespace fragment holding one message `M` whose field `f` is written
with the type name `Missing`, which no scope defines. -/
def c1ns : Namespace :=
  .mk ["p"] [] [] [] [("M", .msg [("f", fld "Missing")] [] [])]

/-- A namespace fragment for package `p`: message `Outer` contains the
nested message `Inner` — whose field `f` is written with the bare type
name `Sibling` — and the sibling nested message `Sibling`. -/
def c2ns : Namespace :=
  .mk ["p"] [] [] []
    [("Outer", .msg [] []
      [("Inner", .msg [("f", fld "Sibling")] [] []),
       ("Sibling", .msg [] [] [])])]

/-- An imported namespace for package `q` that also defines a type named
`Sibling` at its top level. -/
def c2dep : Namespace :=
  .mk ["q"] [] [] [] [("Sibling", .msg [] [] [])]

/-- The namespace fragment the file parser produces for
`package pb.hello; message Req { string name = 1; }
message Resp { string hello = 1; }
service Hello { rpc Say(Req) returns (Resp); }`:
path `pb.hello`, the two messages with one `string` field each, and the
service `Hello` with rpc `Say` whose written request/response types are
the bare names `Req`/`Resp`. -/
def nsHello : Namespace :=
  .mk ["pb", "hello"] [] []
    [("Hello", ⟨[("Say", ⟨"Req", false, "Resp", false⟩)]⟩)]
    [("Req", .msg [("name", fld "string")] [] []),
     ("Resp", .msg [("hello", fld "string")] [] [])]

/-- A fragment with path `a.b.c`, a type `T`, and a nonempty nested
namespace trie (child `sub`). -/
def frag1 : Namespace :=
  .mk ["a", "b", "c"] []
    [("sub", .mk [] [] [] [] [("N", .enum ⟨[("X", 0)]⟩)])]
    [] [("T", .enum ⟨[("A", 0)]⟩)]

/-- A second fragment with the same path `a.b.c`, a colliding type `T`,
and its own nonempty nested namespace trie (child `sub2`). -/
def frag2 : Namespace :=
  .mk ["a", "b", "c"] []
    [("sub2", .mk [] [] [] [] [])]
    [] [("T", .enum ⟨[("B", 1)]⟩)]

/-- Both fragments appended into an empty root, in order. -/
def r6 : Namespace := (Namespace.empty.appendChild frag1).appendChild frag2

/-- `Position` (src/position.rs): 1-based line and column, 0-based
character offset.  `usize` becomes `Nat`. -/
structure Position where
  line : Nat
  column : Nat
  offset : Nat
deriving Repr, DecidableEq

/-- `Position::default` (src/position.rs): line 1, column 1, offset 0. -/
def Position.start : Position := ⟨1, 1, 0⟩

/-- `Position::add_line` (src/position.rs). -/
def Position.addLine (p : Position) : Position :=
  { offset := p.offset + 1, line := p.line + 1, column := 1 }

/-- `Position::remove_line` (src/position.rs); `usize` underflow cannot
occur in reachable states, so truncated `Nat` subtraction is faithful. -/
def Position.removeLine (p : Position) : Position :=
  { offset := p.offset - 1, line := p.line - 1, column := 1 }

/-- `Position::add_column` (src/position.rs). -/
def Position.addColumn (p : Position) : Position :=
  { p with offset := p.offset + 1, column := p.column + 1 }

/-- `Position::remove_column` (src/position.rs). -/
def Position.removeColumn (p : Position) : Position :=
  { p with offset := p.offset - 1, column := p.column - 1 }

/-- `IteratorWithPosition` (src/iterator_with_position.rs): the remaining
character stream, the tracked position, and the optional pushed-back
look-ahead item (`Option<Option<char>>`, where `some none` is a
pushed-back end-of-stream). -/
structure IterState where
  rest : List Char
  position : Position
  peeked : Option (Option Char)
deriving Repr, DecidableEq

/-- A fresh iterator over the given characters
(`IteratorWithPosition::new`). -/
def IterState.new (cs : List Char) : IterState :=
  { rest := cs, position := Position.start, peeked := none }

/-- The position advance in `IteratorWithPosition::next`
(src/iterator_with_position.rs): `add_line` on a newline, `add_column`
otherwise. -/
def advanceChar (p : Position) (c : Char) : Position :=
  if c = '\n' then p.addLine else p.addColumn

/-- `IteratorWithPosition::next` (src/iterator_with_position.rs): a pending
peeked item is returned first; otherwise the head character is consumed,
advancing the position by a line on a newline and by a column otherwise. -/
def iterNext (st : IterState) : Option Char × IterState :=
  match st.peeked with
  | some v => (v, { st with peeked := none })
  | none =>
    match st.rest with
    | [] => (none, st)
    | c :: rest =>
      (some c, { rest := rest, position := advanceChar st.position c, peeked := none })

/-- `IteratorWithPosition::next_if` (src/iterator_with_position.rs): take
the next item when the predicate holds, otherwise push it back as the
peeked item and return nothing. -/
def iterNextIf (p : Char → Bool) (st : IterState) : Option Char × IterState :=
  match iterNext st with
  | (some c, st') =>
    if p c then (some c, st') else (none, { st' with peeked := some (some c) })
  | (none, st') => (none, { st' with peeked := some none })

/-- `IteratorWithPosition::current_position`
(src/iterator_with_position.rs): the tracked position, retreated by one
character when a look-ahead character is pending. -/
def currentPosition (st : IterState) : Position :=
  match st.peeked with
  | some (some c) =>
    if c = '\n' then st.position.removeLine else st.position.removeColumn
  | _ => st.position

/-- `IteratorWithPosition::current_line`
(src/iterator_with_position.rs). -/
def currentLine (st : IterState) : Nat :=
  match st.peeked with
  | some (some c) => if c = '\n' then st.position.line - 1 else st.position.line
  | _ => st.position.line

/-- Apply `iterNext` n times, dropping the yielded characters; used to
state the position-tracking invariant. -/
def consumeN : IterState → Nat → IterState
  | st, 0 => st
  | st, n + 1 => consumeN (iterNext st).2 n

/-- The number of newline characters in a consumed prefix. -/
def countNewlines (cs : List Char) : Nat := cs.count '\n'

/-- The number of characters consumed since the last newline (all of them
when no newline was consumed). -/
def sinceLastNewline (cs : List Char) : Nat :=
  cs.foldl (fun acc c => if c = '\n' then 0 else acc + 1) 0

/-- `CommentKind` (src/comment.rs). -/
inductive CommentKind where
  | starSlash
  | doubleSlash
deriving Repr, DecidableEq

/-- `Comment` (src/comment.rs). -/
structure Comment where
  kind : CommentKind
  text : String
  startLine : Nat
  endLine : Nat
deriving Repr, DecidableEq

/-- `Comment::star_slash` (src/comment.rs). -/
def Comment.mkStarSlash (text : String) (startLine endLine : Nat) : Comment :=
  ⟨.starSlash, text, startLine, endLine⟩

/-- `Comment::double_slash` (src/comment.rs). -/
def Comment.mkDoubleSlash (text : String) (startLine endLine : Nat) : Comment :=
  ⟨.doubleSlash, text, startLine, endLine⟩

/-- `TokenError` (src/parse_error.rs). -/
inductive TokenError where
  | eof
  | invalidStringDelimiter (c : Char)
  | missingEndDelimiter (c : Char)
  | unexpectedChar (c : Char)
deriving Repr, DecidableEq

/-- The token enum consumed by src/tokenizer.rs and src/parser.rs (the
checked-in src/token.rs is an older revision; this is the variant those
two files construct and match on).  Keyword constructors carry a `Kw`
suffix where the Rust name would collide with a Lean keyword; the mapping
is otherwise one to one: `eq`/`semi`/… are the punctuation variants,
`string` is `Token::String`, `identifier` is `Token::Identifier`, `eof` is
`Token::EOF`. -/
inductive Token where
  | eq
  | semi
  | colon
  | lbrace
  | rbrace
  | lparen
  | rparen
  | lbrack
  | rbrack
  | langle
  | rangle
  | comma
  | eof
  | string (s : String)
  | identifier (s : String)
  | fieldRule (r : FieldRule)
  | importKw
  | publicKw
  | packageKw
  | reservedKw
  | optionKw
  | serviceKw
  | returnsKw
  | rpcKw
  | streamKw
  | extensionsKw
  | mapKw
  | messageKw
  | extendKw
  | syntaxKw
  | oneofKw
  | enumKw
deriving Repr, DecidableEq

/-- The keyword table at the end of `Tokenizer::read_identifier`
(src/tokenizer.rs): a completed word is matched against the keywords and
otherwise becomes an identifier. -/
def keywordOf (word : String) : Token :=
  if word = "import" then .importKw
  else if word = "public" then .publicKw
  else if word = "package" then .packageKw
  else if word = "reserved" then .reservedKw
  else if word = "option" then .optionKw
  else if word = "service" then .serviceKw
  else if word = "returns" then .returnsKw
  else if word = "rpc" then .rpcKw
  else if word = "stream" then .streamKw
  else if word = "extensions" then .extensionsKw
  else if word = "repeated" then .fieldRule .repeated
  else if word = "optional" then .fieldRule .optional
  else if word = "required" then .fieldRule .required
  else if word = "map" then .mapKw
  else if word = "message" then .messageKw
  else if word = "extend" then .extendKw
  else if word = "syntax" then .syntaxKw
  else if word = "oneof" then .oneofKw
  else if word = "enum" then .enumKw
  else .identifier word

/-- The identifier character class of `Tokenizer::read_identifier`
(src/tokenizer.rs): ASCII letters, digits, dot and underscore. -/
def isIdentChar (c : Char) : Bool :=
  ('a' ≤ c && c ≤ 'z') || ('A' ≤ c && c ≤ 'Z') || ('0' ≤ c && c ≤ '9')
    || c = '.' || c = '_'

/-- `Tokenizer` (src/tokenizer.rs): the position-tracking character
iterator plus the staged pending comment. -/
structure Tokenizer where
  chars : IterState
  comment : Option Comment
deriving Repr, DecidableEq

/-- `Tokenizer::new` (src/tokenizer.rs). -/
def Tokenizer.new (cs : List Char) : Tokenizer :=
  { chars := IterState.new cs, comment := none }

/-- `Tokenizer::read_delimited_string` (src/tokenizer.rs), with explicit
loop fuel (`none` = fuel ran out; the Rust loop runs once per consumed
character, so any fuel above the remaining character count is enough).
`acc` is the `vec` accumulator and `escaped` the `found_escape_char` flag.
Faithfully to the source, an opening backslash is pushed into the
accumulator as soon as it is seen, a recognized escape then pushes the
decoded character on top of it, and an unrecognized escape pushes a second
backslash and the character; reaching the end delimiter outside an escape
returns the accumulated string, and input exhaustion is a
`MissingEndDelimiter` error. -/
def readDelimitedStringF (d : Char) : Nat → List Char → Bool → IterState →
    Option (Except TokenError (String × IterState))
  | 0, _, _, _ => none
  | fuel + 1, acc, escaped, st =>
    match iterNext st with
    | (none, _) => some (.error (.missingEndDelimiter d))
    | (some c, st') =>
      if escaped then
        if c = 'n' then readDelimitedStringF d fuel (acc ++ ['\n']) false st'
        else if c = 'r' then readDelimitedStringF d fuel (acc ++ ['\r']) false st'
        else if c = 't' then readDelimitedStringF d fuel (acc ++ ['\t']) false st'
        else if c = '\\' then readDelimitedStringF d fuel (acc ++ ['\\']) false st'
        else if c = '"' then readDelimitedStringF d fuel (acc ++ ['"']) false st'
        else if c = '\'' then readDelimitedStringF d fuel (acc ++ ['\'']) false st'
        else readDelimitedStringF d fuel (acc ++ ['\\', c]) false st'
      else if c = '\\' then readDelimitedStringF d fuel (acc ++ ['\\']) true st'
      else if c = d then some (.ok (String.mk acc, st'))
      else readDelimitedStringF d fuel (acc ++ [c]) false st'

/-- The `next_if` loop of `Tokenizer::read_identifier` (src/tokenizer.rs),
with explicit fuel: keep taking identifier characters. -/
def readIdentCharsF : Nat → List Char → IterState → Option (List Char × IterState)
  | 0, _, _ => none
  | fuel + 1, acc, st =>
    match iterNextIf isIdentChar st with
    | (some c, st') => readIdentCharsF fuel (acc ++ [c]) st'
    | (none, st') => some (acc, st')

/-- The block-comment loop of `Tokenizer::read_comment` (src/tokenizer.rs),
with explicit fuel.  `prev` is `previous_char`, `acc` the comment text and
`lastIns` the `last_insert_is_line` flag; the loop ends at `*/` or at end
of input, both returning a star-slash comment. -/
def blockCommentLoopF (startLine : Nat) : Nat → Char → List Char → Bool → IterState →
    Option (Comment × IterState)
  | 0, _, _, _, _ => none
  | fuel + 1, prev, acc, lastIns, st =>
    match iterNext st with
    | (none, st') =>
      some (Comment.mkStarSlash (String.mk acc) startLine (currentLine st'), st')
    | (some cur, st') =>
      if prev = '*' && cur = '/' then
        some (Comment.mkStarSlash (String.mk acc) startLine (currentLine st'), st')
      else if prev = '\r' then
        blockCommentLoopF startLine fuel cur acc lastIns st'
      else if prev = '\n' && (cur = ' ' || cur = '\t') then
        blockCommentLoopF startLine fuel prev acc lastIns st'
      else if lastIns && prev = '*' then
        blockCommentLoopF startLine fuel cur acc lastIns st'
      else if prev = '\n' then
        blockCommentLoopF startLine fuel cur (acc ++ [prev]) true st'
      else
        blockCommentLoopF startLine fuel cur (acc ++ [prev]) lastIns st'

/-- The line-comment loop of `Tokenizer::read_comment` (src/tokenizer.rs),
with explicit fuel: take characters up to (not including) the newline,
stripping a third leading slash; `stripped` is `stripped_first_slash`. -/
def lineCommentLoopF : Nat → Bool → List Char → IterState →
    Option (List Char × IterState)
  | 0, _, _, _ => none
  | fuel + 1, stripped, acc, st =>
    match iterNextIf (fun c => c != '\n') st with
    | (some c, st') =>
      if stripped then lineCommentLoopF fuel true (acc ++ [c]) st'
      else if c = '/' then lineCommentLoopF fuel true acc st'
      else lineCommentLoopF fuel true (acc ++ [c]) st'
    | (none, st') => some (acc, st')

/-- `Tokenizer::read_comment` (src/tokenizer.rs), with explicit fuel: after
the opening slash, a `*` starts a block comment (a second `*` of `/**` is
skipped) and a `/` a line comment; a line comment directly following a
staged line comment is concatenated onto it (the staged comment is taken
either way); any other character is an `UnexpectedChar` error. -/
def readCommentF (fuel : Nat) (st : Tokenizer) :
    Option (Except TokenError (Comment × Tokenizer)) :=
  match iterNext st.chars with
  | (none, _) => some (.error .eof)
  | (some c, ch1) =>
    let startLine := currentLine ch1
    if c = '*' then
      match iterNext ch1 with
      | (none, _) => some (.error .eof)
      | (some p0, ch2) =>
        if p0 = '*' then
          match iterNext ch2 with
          | (none, _) => some (.error .eof)
          | (some p1, ch3) =>
            match blockCommentLoopF startLine fuel p1 [] false ch3 with
            | none => none
            | some (cmt, ch4) => some (.ok (cmt, { st with chars := ch4 }))
        else
          match blockCommentLoopF startLine fuel p0 [] false ch2 with
          | none => none
          | some (cmt, ch4) => some (.ok (cmt, { st with chars := ch4 }))
    else if c = '/' then
      match lineCommentLoopF fuel false [] ch1 with
      | none => none
      | some (acc, ch2) =>
        let cmt :=
          match st.comment with
          | some prev =>
            if prev.kind = .doubleSlash && prev.endLine = startLine - 1 then
              Comment.mkDoubleSlash (prev.text ++ "\n" ++ String.mk acc)
                prev.startLine startLine
            else Comment.mkDoubleSlash (String.mk acc) startLine startLine
          | none => Comment.mkDoubleSlash (String.mk acc) startLine startLine
        some (.ok (cmt, { chars := ch2, comment := none }))
    else some (.error (.unexpectedChar c))

/-- `Tokenizer::next` (src/tokenizer.rs), with explicit fuel (`none` =
fuel ran out; the Rust recursion steps once per consumed character).  End
of input yields `Ok(Token::EOF)` — not an error; whitespace recurses;
a slash reads a comment, stages it and recurses; a quote reads a delimited
string; anything else reads a word through the keyword table. -/
def tokNextF : Nat → Tokenizer → Option (Except TokenError (Token × Tokenizer))
  | 0, _ => none
  | fuel + 1, st =>
    match iterNext st.chars with
    | (none, ch) => some (.ok (.eof, { st with chars := ch }))
    | (some c, ch) =>
      let st1 : Tokenizer := { st with chars := ch }
      if c = '=' then some (.ok (.eq, st1))
      else if c = ';' then some (.ok (.semi, st1))
      else if c = ':' then some (.ok (.colon, st1))
      else if c = '{' then some (.ok (.lbrace, st1))
      else if c = '}' then some (.ok (.rbrace, st1))
      else if c = '(' then some (.ok (.lparen, st1))
      else if c = ')' then some (.ok (.rparen, st1))
      else if c = '[' then some (.ok (.lbrack, st1))
      else if c = ']' then some (.ok (.rbrack, st1))
      else if c = '<' then some (.ok (.langle, st1))
      else if c = '>' then some (.ok (.rangle, st1))
      else if c = ',' then some (.ok (.comma, st1))
      else if c = ' ' || c = '\t' || c = '\r' || c = '\n' then tokNextF fuel st1
      else if c = '/' then
        match readCommentF fuel st1 with
        | none => none
        | some (.error e) => some (.error e)
        | some (.ok (cmt, st2)) => tokNextF fuel { st2 with comment := some cmt }
      else if c = '\'' || c = '"' then
        match readDelimitedStringF c fuel [] false st1.chars with
        | none => none
        | some (.error e) => some (.error e)
        | some (.ok (s, ch2)) => some (.ok (.string s, { st1 with chars := ch2 }))
      else
        match readIdentCharsF fuel [c] st1.chars with
        | none => none
        | some (cs, ch2) => some (.ok (keywordOf (String.mk cs), { st1 with chars := ch2 }))

/-- `Tokenizer::skip_until_token` (src/tokenizer.rs), with explicit loop
fuel: call `next` until it yields the target token (then `Ok`) or an error.
`none` means the fuel ran out before either happened. -/
def skipUntilF : Nat → Token → Tokenizer → Option (Except TokenError Tokenizer)
  | 0, _, _ => none
  | fuel + 1, tok, st =>
    match tokNextF (fuel + 1) st with
    | none => none
    | some (.error e) => some (.error e)
    | some (.ok (t, st')) => if t = tok then some (.ok st') else skipUntilF fuel tok st'

/-- The result string of reading a double-quoted string literal from the
given characters, for stating concrete theorems; the fuel covers the whole
input. -/
def rdsResult (input : List Char) : Option String :=
  match readDelimitedStringF '"' (input.length + 1) [] false (IterState.new input) with
  | some (.ok (s, _)) => some s
  | _ => none

/-- The lexer error of reading a double-quoted string literal from the
given characters, for stating concrete theorems. -/
def rdsError (input : List Char) : Option TokenError :=
  match readDelimitedStringF '"' (input.length + 1) [] false (IterState.new input) with
  | some (.error e) => some e
  | _ => none

/-- `ParseError` (src/parse_error.rs); the `ParseIntError` payloads are
embedded as their message strings. -/
inductive ParseError where
  | packageNotSet
  | protoSyntaxNotSupported (version : String)
  | packageAlreadySet
  | unexpectedTopLevelToken (t : Token)
  | unexpectedString (t : Token)
  | illegalToken (t : Token)
  | unexpectedToken (found : Token) (expected : List Token)
  | parseFieldId (msg : String)
  | parseEnumValue (msg : String)
  | tokenErr (e : TokenError)
deriving Repr, DecidableEq

/-- Modelled from the spec: `Token::as_quoted_string` of the token enum
used by src/parser.rs is not in src/ (the checked-in src/token.rs is an
older revision); per the spec an import path is a quoted string token, so
a `String` token yields its contents and any other token is an
`UnexpectedString` parse error. -/
def Token.asQuotedString : Token → Except ParseError String
  | .string s => .ok s
  | t => .error (.unexpectedString t)

/-- `FileParser` (src/parser.rs): the tokenizer plus the namespace being
populated (`ns` is the Rust field `namespace`, a Lean keyword); the
`file_name` field is omitted, it only labels errors. -/
structure FileParser where
  tokenizer : Tokenizer
  ns : Namespace

/-- `FileParser::expect_token` (src/parser.rs): read one token and fail
with `UnexpectedToken` unless it equals the expected one. -/
def expectTokenF (fuel : Nat) (expected : Token) (tk : Tokenizer) :
    Option (Except ParseError Tokenizer) :=
  match tokNextF fuel tk with
  | none => none
  | some (.error e) => some (.error (.tokenErr e))
  | some (.ok (t, tk')) =>
    if t = expected then some (.ok tk')
    else some (.error (.unexpectedToken t [expected]))

/-- `FileParser::parse_import` (src/parser.rs): read a token; on `public`
read one more; either way the (quoted string) import path is added to the
namespace's import set — the public marker itself is not recorded — and a
semicolon is expected. -/
def parseImportF (fuel : Nat) (fp : FileParser) : Option (Except ParseError FileParser) :=
  match tokNextF fuel fp.tokenizer with
  | none => none
  | some (.error e) => some (.error (.tokenErr e))
  | some (.ok (t, tk1)) =>
    let quoted : Option (Except ParseError (String × Tokenizer)) :=
      match t with
      | .publicKw =>
        match tokNextF fuel tk1 with
        | none => none
        | some (.error e) => some (.error (.tokenErr e))
        | some (.ok (t2, tk2)) =>
          match t2.asQuotedString with
          | .error e => some (.error e)
          | .ok s => some (.ok (s, tk2))
      | tok =>
        match tok.asQuotedString with
        | .error e => some (.error e)
        | .ok s => some (.ok (s, tk1))
    match quoted with
    | none => none
    | some (.error e) => some (.error e)
    | some (.ok (s, tk2)) =>
      match expectTokenF fuel .semi tk2 with
      | none => none
      | some (.error e) => some (.error e)
      | some (.ok tk3) => some (.ok { tokenizer := tk3, ns := fp.ns.addImport s })

/-- The import set produced by running `parse_import` on the given input
with an empty starting namespace, for stating concrete theorems. -/
def importResult (input : String) : Option (List String) :=
  match parseImportF (input.length + 10)
      { tokenizer := Tokenizer.new input.toList, ns := Namespace.empty } with
  | some (.ok fp) => some fp.ns.imports
  | _ => none

/-- The file parser state at the start of `import public "b.proto";`
right after the `import` keyword was consumed, with an empty namespace. -/
def c4fp : FileParser :=
  { tokenizer := Tokenizer.new " public \"b.proto\";".toList, ns := Namespace.empty }

/-- The tokenizer state of `c4fp` after reading the `public` token. -/
def c4tk1 : Tokenizer :=
  match tokNextF 28 c4fp.tokenizer with
  | some (.ok (_, tk)) => tk
  | _ => Tokenizer.new []

/-- The tokenizer state of `c4fp` after reading `public` and the
quoted path. -/
def c4tk2 : Tokenizer :=
  match tokNextF 28 c4tk1 with
  | some (.ok (_, tk)) => tk
  | _ => Tokenizer.new []

/-- `ParseFileError` (src/parse_error.rs): a read failure or a parse
error; the `io::Error` payload and the rendered context string are
dropped, only which failure occurred is kept. -/
inductive ParseFileError where
  | readErr (fileName : String)
  | parseErr (e : ParseError)

/-- `Parser` (src/parser.rs): the accumulating root namespace, the root
directory for resolving imports, and the already-parsed path set
(`HashSet<PathBuf>` as a list). -/
structure ParserSt where
  root : Namespace
  rootDir : String
  parsedFiles : List String

/-- `Parser::new` (src/parser.rs): fresh root, and `parsed_files` seeded
with the ignored paths so they count as already parsed. -/
def ParserSt.new (rootDir : String) (ignoredFiles : List String) : ParserSt :=
  { root := Namespace.empty, rootDir := rootDir, parsedFiles := ignoredFiles }

/-- The file system as the driver sees it: each readable path is mapped to
the outcome of running the (deterministic) `FileParser` on its content; a
path not in the map is a read failure.  This abstracts the
`fs::read_to_string` + `FileParser::parse` pair of `Parser::parse_file`
(src/parser.rs), whose memoization and recursion structure is what claim
C9 is about. -/
def FileSys : Type := List (String × Except ParseError Namespace)

mutual
/-- `Parser::parse_file` (src/parser.rs), with explicit recursion fuel
(`none` = fuel ran out): return at once when the path was already parsed;
otherwise record the path as parsed first, read and parse the file, then
recurse into each listed import (resolved against the root directory —
`PathBuf::join` is modelled as prefixing), and finally append the parsed
fragment to the root.  Alongside the driver state the list of paths
actually read is returned, so that at-most-once reading is statable. -/
def parseFileF (fs : FileSys) (fuel : Nat) (st : ParserSt) (fileName : String) :
    Option (Except ParseFileError ParserSt × List String) :=
  match fuel with
  | 0 => none
  | fuel' + 1 =>
    if fileName ∈ st.parsedFiles then some (.ok st, [])
    else
      let st1 := { st with parsedFiles := st.parsedFiles ++ [fileName] }
      match assocGet fs fileName with
      | none => some (.error (.readErr fileName), [fileName])
      | some (.error e) => some (.error (.parseErr e), [fileName])
      | some (.ok ns) =>
        match parseImportsF fs fuel' st1 ns.imports with
        | none => none
        | some (.error e, reads) => some (.error e, fileName :: reads)
        | some (.ok st2, reads) =>
          some (.ok { st2 with root := st2.root.appendChild ns }, fileName :: reads)
termination_by (fuel, 0)

/-- The `for file in namespace.imports` loop of `Parser::parse_file`
(src/parser.rs): recursively parse each import, threading the driver
state and propagating the first failure. -/
def parseImportsF (fs : FileSys) (fuel : Nat) (st : ParserSt) (imports : List String) :
    Option (Except ParseFileError ParserSt × List String) :=
  match imports with
  | [] => some (.ok st, [])
  | imp :: rest =>
    match parseFileF fs fuel st (st.rootDir ++ imp) with
    | none => none
    | some (.error e, reads) => some (.error e, reads)
    | some (.ok st', reads) =>
      match parseImportsF fs fuel st' rest with
      | none => none
      | some (res, reads2) => some (res, reads ++ reads2)
termination_by (fuel, imports.length + 1)
end

/-- The number of file-system paths not yet recorded as parsed; the
driver's recursion depth is bounded by it. -/
def numUnparsed (fs : FileSys) (st : ParserSt) : Nat :=
  ((fs.map Prod.fst).filter (fun p => ¬ (p ∈ st.parsedFiles))).length

/-- Fragment of `a.proto` in the cyclic two-file fixture: it imports
`b.proto`. -/
def nsA : Namespace := .mk ["pa"] ["b.proto"] [] [] [("A", .msg [] [] [])]

/-- Fragment of `b.proto` in the cyclic two-file fixture: it imports
`a.proto` back, closing the cycle. -/
def nsB : Namespace := .mk ["pb"] ["a.proto"] [] [] [("B", .msg [] [] [])]

/-- A two-file file system whose import graph is a cycle. -/
def fsAB : FileSys := [("a.proto", .ok nsA), ("b.proto", .ok nsB)]

/-- The bookkeeping invariant of the driver: the read trace has no
duplicates, reads only paths that were not yet parsed, and on success the
parsed set has only grown and contains every read path. -/
def driverInv (st : ParserSt) (res : Except ParseFileError ParserSt) (reads : List String) : Prop :=
  reads.Nodup ∧ (∀ p ∈ reads, p ∉ st.parsedFiles) ∧
  ∀ st', res = .ok st' →
    (∃ ext, st'.parsedFiles = st.parsedFiles ++ ext) ∧ (∀ p ∈ reads, p ∈ st'.parsedFiles)

end Pbjs

namespace Pbjs

/-- `assocGet` after `assocInsert` at the same key finds the new value. -/
theorem assocGet_assocInsert {α : Type} (l : List (String × α)) (key : String) (v : α) :
    assocGet (assocInsert l key v) key = some v := by
  induction l with
  | nil => simp [assocInsert, assocGet]
  | cons kv rest ih =>
    by_cases h : kv.1 = key
    · simp [assocInsert, assocGet, h]
    · simpa [assocInsert, assocGet, h] using ih

/-- Descending an empty namespace yields either the empty namespace or
nothing, so its content projections are empty. -/
theorem descend_empty_elim (proj : Namespace → List (String × α))
    (hproj : proj Namespace.empty = []) (rest : List String) :
    ((descend Namespace.empty rest).elim [] proj) = [] := by
  cases rest with
  | nil => simpa [descend] using hproj
  | cons k rs => simp [descend, Namespace.empty, Namespace.nested, assocGet]

/-- The inductive core behind the claim C6 theorem: walking
`appendAt root path ctypes cservices` back down `path` reaches a node
whose types and services are the pre-existing node's extended with the
child's (later write winning, by `extendAssoc`), and whose nested trie is
the pre-existing node's — the child's nested content is not there. -/
theorem appendAt_descend (path : List String) :
    ∀ (root : Namespace) (ct : List (String × Ty)) (cs : List (String × Service)),
    ∃ n, descend (appendAt root path ct cs) path = some n ∧
      n.types = extendAssoc ((descend root path).elim [] Namespace.types) ct ∧
      n.services = extendAssoc ((descend root path).elim [] Namespace.services) cs ∧
      n.nested = (descend root path).elim [] Namespace.nested := by
  induction path with
  | nil =>
    intro root ct cs
    cases root with
    | mk p i nst s t =>
      refine ⟨_, rfl, ?_, ?_, ?_⟩ <;>
        simp [appendAt, descend, Namespace.types, Namespace.services, Namespace.nested]
  | cons k rest ih =>
    intro root ct cs
    cases root with
    | mk p i nst s t =>
      cases hget : assocGet nst k with
      | some c =>
        obtain ⟨n, hdesc, htypes, hserv, hnest⟩ := ih c ct cs
        refine ⟨n, ?_, ?_, ?_, ?_⟩
        · simp [appendAt, descend, Namespace.nested, hget, assocGet_assocInsert, hdesc]
        · simpa [descend, Namespace.nested, hget] using htypes
        · simpa [descend, Namespace.nested, hget] using hserv
        · simpa [descend, Namespace.nested, hget] using hnest
      | none =>
        obtain ⟨n, hdesc, htypes, hserv, hnest⟩ := ih Namespace.empty ct cs
        refine ⟨n, ?_, ?_, ?_, ?_⟩
        · simp [appendAt, descend, Namespace.nested, hget, assocGet_assocInsert, hdesc]
        · rw [htypes, descend_empty_elim Namespace.types rfl]
          simp [descend, Namespace.nested, hget]
        · rw [hserv, descend_empty_elim Namespace.services rfl]
          simp [descend, Namespace.nested, hget]
        · rw [hnest, descend_empty_elim Namespace.nested rfl]
          simp [descend, Namespace.nested, hget]

/-- When a function returns `none` on every list element, `findSome?`
returns `none`. -/
theorem findSome?_none {α β : Type} (f : α → Option β) :
    ∀ l : List α, (∀ x ∈ l, f x = none) → l.findSome? f = none := by
  intro l
  induction l with
  | nil => intro _; rfl
  | cons d rest ih =>
    intro h
    have hd := h d (by simp)
    have hrest : List.findSome? f rest = none := ih fun x hx => h x (by simp [hx])
    simp [List.findSome?, hd, hrest]

/-- Claim C1 (amended): when no candidate scope resolves a non-scalar
reference — neither the namespace's own `resolve_path` nor any dependency
namespace — `normalize_types` leaves the written type name unchanged; it
does not fail and no `UnresolvedField`/`UnresolvedRpcType` error exists. -/
theorem normalize_unresolved_left_unchanged (self : Namespace) (deps : List Namespace)
    (b : Bool) (s : String)
    (hscalar : SCALARS.contains s = false)
    (hself : self.resolvePath (toPath s) = none)
    (hdeps : ∀ ns ∈ deps, ns.resolvePath (toPath s) = none) :
    normalizeTypeName self deps b s = s := by
  have hs : s ∉ SCALARS := by simpa using hscalar
  have hfind : deps.findSome? (fun ns =>
      (ns.resolvePath (toPath s)).map fun p => toAbsolutePath ns.path p) = none :=
    findSome?_none _ deps fun ns hns => by simp [hdeps ns hns]
  simp [normalizeTypeName, hs, hself, hfind]

/-- Witness for `normalize_unresolved_left_unchanged` at a concrete input:
the `Missing` reference of fixture `c1ns` is non-scalar and unresolvable,
and normalization maps it to itself. -/
theorem c1_witness :
    SCALARS.contains "Missing" = false ∧
    c1ns.resolvePath (toPath "Missing") = none ∧
    normalizeTypeName c1ns [] true "Missing" = "Missing" :=
  ⟨by decide, by decide,
    normalize_unresolved_left_unchanged c1ns [] true "Missing" (by decide) (by decide)
      (by intro ns hns; cases hns)⟩

/-- Counterexample to claim C1 as stated: on the fixture `c1ns`, whose
field `M.f` references the undefined type `Missing`, the resolution pass
completes (it cannot fail — it returns a namespace, not an error) and
produces a tree in which the dangling reference is still present. -/
theorem c1_counterexample :
    ((c1ns.normalizeTypes []).types.map fun kv => (kv.1, kv.2.fieldType "f"))
        = [("M", some "Missing")] ∧
    SCALARS.contains "Missing" = false ∧
    c1ns.resolvePath (toPath "Missing") = none := by
  refine ⟨?_, by decide, by decide⟩
  decide

/-- Claim C2 (amended): an unqualified field type reference is resolved
against the file namespace's top-level type table only; when that lookup
misses, the first dependency namespace whose `resolve_path` succeeds wins
— the enclosing message scopes are never consulted, so a sibling nested
type does not shadow an import. -/
theorem normalize_dep_wins_when_namespace_misses (self d : Namespace)
    (rest : List Namespace) (b : Bool) (s p : String)
    (hscalar : SCALARS.contains s = false)
    (hself : self.resolvePath (toPath s) = none)
    (hdep : d.resolvePath (toPath s) = some p) :
    normalizeTypeName self (d :: rest) b s = toAbsolutePath d.path p := by
  have hs : s ∉ SCALARS := by simpa using hscalar
  simp [normalizeTypeName, hs, hself, List.findSome?, hdep]

/-- Witness for `normalize_dep_wins_when_namespace_misses` at the concrete
fixture: `Sibling` inside `c2ns` misses the namespace-level table and is
taken from the import `c2dep`. -/
theorem c2_witness :
    SCALARS.contains "Sibling" = false ∧
    c2ns.resolvePath (toPath "Sibling") = none ∧
    c2dep.resolvePath (toPath "Sibling") = some "Sibling" ∧
    normalizeTypeName c2ns [c2dep] true "Sibling" = toAbsolutePath c2dep.path "Sibling" :=
  ⟨by decide, by decide, by decide,
    normalize_dep_wins_when_namespace_misses c2ns c2dep [] true "Sibling" "Sibling"
      (by decide) (by decide) (by decide)⟩

/-- Counterexample to claim C2 as stated: in fixture `c2ns` the field
`Outer.Inner.f` is written with the bare name `Sibling` and a sibling
nested type `Outer.Sibling` exists, yet resolution rewrites the field to
the imported namespace's `.q.Sibling`, not to the sibling nested type. -/
theorem c2_counterexample :
    (((assocGet (c2ns.normalizeTypes [c2dep]).types "Outer").bind
        (fun t => t.get "Inner")).bind fun t => t.fieldType "f")
      = some ".q.Sibling" ∧
    ((assocGet c2ns.types "Outer").bind fun t => t.get "Sibling").isSome = true ∧
    ".q.Sibling" ≠ ".p.Outer.Sibling" := by
  refine ⟨by decide, by decide, by decide⟩

/-- Claim C3 (amended): for the single file of fixture `nsHello`, the
resolved rpc `Hello.Say` has request type `.pb.hello.Req` and response
type `.pb.hello.Resp` — the absolute paths carry the leading dot added by
`to_absolute_path`. -/
theorem c3_resolved_with_leading_dot :
    (nsHello.normalizeTypes []).rpcRequest "Hello" "Say" = some ".pb.hello.Req" ∧
    (nsHello.normalizeTypes []).rpcResponse "Hello" "Say" = some ".pb.hello.Resp" := by
  refine ⟨?_, ?_⟩ <;> decide

/-- Counterexample to claim C3 as stated: the resolved request type of
`Hello.Say` is `.pb.hello.Req`, which is not the claimed `pb.hello.Req`. -/
theorem c3_counterexample :
    (nsHello.normalizeTypes []).rpcRequest "Hello" "Say" = some ".pb.hello.Req" ∧
    (".pb.hello.Req" : String) ≠ "pb.hello.Req" := by
  refine ⟨by decide, by decide⟩

/-- Claim C5: every scalar type name (the fixed fifteen-element set) is
passed through the resolver unchanged — `normalize_types` skips the lookup
entirely for scalars, for field references and rpc references alike. -/
theorem normalize_scalar_identity (self : Namespace) (deps : List Namespace)
    (b : Bool) (s : String) (h : s ∈ SCALARS) :
    normalizeTypeName self deps b s = s := by
  simp [normalizeTypeName, h]

/-- Witness for `normalize_scalar_identity`: the scalar `string` at the
concrete fixture `nsHello` is left unchanged. -/
theorem c5_witness :
    "string" ∈ SCALARS ∧ normalizeTypeName nsHello [] true "string" = "string" :=
  ⟨by decide, normalize_scalar_identity nsHello [] true "string" (by decide)⟩

/-- Claim C6 (amended): appending a fragment whose path is `a.b.c` walks
and creates on demand the chained trie nodes for `a`, `b`, `c`, and merges
the fragment's type and service maps into the target node with the later
write winning; the fragment's own nested namespace trie is discarded, not
merged. -/
theorem append_child_merges_types_services_drops_nested (root child : Namespace) :
    ∃ n, descend (root.appendChild child) child.path = some n ∧
      n.types = extendAssoc ((descend root child.path).elim [] Namespace.types) child.types ∧
      n.services = extendAssoc ((descend root child.path).elim [] Namespace.services) child.services ∧
      n.nested = (descend root child.path).elim [] Namespace.nested :=
  appendAt_descend child.path root child.types child.services

/-- Counterexample to claim C6 as stated: `frag1` and `frag2` share the
path `a.b.c` and each carries a nonempty nested namespace trie (`sub`,
resp. `sub2`); after appending both, the trie node at `a.b.c` holds the
later fragment's `T` (last write wins) but has an empty nested map — the
nested tries were discarded, not deep-merged. -/
theorem c6_counterexample :
    (descend r6 ["a", "b", "c"]).map (fun n =>
        (n.nested.map Prod.fst, (assocGet n.types "T").bind Ty.enumValues))
      = some ([], some [("B", 1)]) ∧
    frag1.nested.map Prod.fst = ["sub"] ∧
    frag2.nested.map Prod.fst = ["sub2"] := by
  refine ⟨by decide, by decide, by decide⟩

/-- Consuming characters through the iterator with no pending look-ahead
threads the remaining list, folds `advanceChar` over the consumed prefix,
and never creates a look-ahead. -/
theorem consumeN_spec (n : Nat) :
    ∀ (cs : List Char) (pos : Position), n ≤ cs.length →
      consumeN ⟨cs, pos, none⟩ n = ⟨cs.drop n, (cs.take n).foldl advanceChar pos, none⟩ := by
  induction n with
  | zero => intro cs pos _; simp [consumeN]
  | succ n ih =>
    intro cs pos h
    cases cs with
    | nil => simp at h
    | cons c cs' =>
      have hstep : consumeN ⟨c :: cs', pos, none⟩ (n + 1)
          = consumeN ⟨cs', advanceChar pos c, none⟩ n := by
        simp [consumeN, iterNext]
      rw [hstep, ih cs' (advanceChar pos c) (by simpa using h)]
      simp

/-- Folding the position advance adds the consumed length to the offset. -/
theorem foldl_advance_offset :
    ∀ (cs : List Char) (p : Position), (cs.foldl advanceChar p).offset = p.offset + cs.length := by
  intro cs
  induction cs with
  | nil => intro p; simp
  | cons c cs ih =>
    intro p
    rw [List.foldl_cons, ih]
    have : (advanceChar p c).offset = p.offset + 1 := by
      by_cases hc : c = '\n' <;>
        simp [advanceChar, hc, Position.addLine, Position.addColumn]
    rw [this]
    simp only [List.length_cons]
    omega

/-- Folding the position advance adds the newline count to the line. -/
theorem foldl_advance_line :
    ∀ (cs : List Char) (p : Position),
      (cs.foldl advanceChar p).line = p.line + countNewlines cs := by
  intro cs
  induction cs with
  | nil => intro p; simp [countNewlines]
  | cons c cs ih =>
    intro p
    rw [List.foldl_cons, ih]
    by_cases hc : c = '\n' <;>
      (simp [advanceChar, hc, Position.addLine, Position.addColumn, countNewlines,
        List.count_cons]; try omega)

/-- The column of the folded position is the fold of the column step. -/
theorem foldl_advance_column :
    ∀ (cs : List Char) (p : Position),
      (cs.foldl advanceChar p).column
        = cs.foldl (fun col c => if c = '\n' then 1 else col + 1) p.column := by
  intro cs
  induction cs with
  | nil => intro p; simp
  | cons c cs ih =>
    intro p
    rw [List.foldl_cons, List.foldl_cons, ih]
    by_cases hc : c = '\n' <;>
      simp [advanceChar, hc, Position.addLine, Position.addColumn]

/-- The column fold started one above an accumulator equals the
characters-since-last-newline fold plus one. -/
theorem foldl_column_shift :
    ∀ (cs : List Char) (a : Nat),
      cs.foldl (fun col c => if c = '\n' then 1 else col + 1) (a + 1)
        = cs.foldl (fun x c => if c = '\n' then 0 else x + 1) a + 1 := by
  intro cs
  induction cs with
  | nil => intro a; simp
  | cons c cs ih =>
    intro a
    by_cases hc : c = '\n'
    · rw [List.foldl_cons, List.foldl_cons]
      simpa [hc] using ih 0
    · rw [List.foldl_cons, List.foldl_cons]
      simpa [hc] using ih (a + 1)

/-- Claim C10: after consuming n characters through
`IteratorWithPosition::next` from a fresh iterator, with no look-ahead
pending, the tracked position has offset n, line one plus the number of
consumed newlines, and column one plus the number of characters consumed
since the last newline. -/
theorem position_tracking_invariant (cs : List Char) (n : Nat) (h : n ≤ cs.length) :
    (consumeN (IterState.new cs) n).peeked = none ∧
    (consumeN (IterState.new cs) n).position.offset = n ∧
    (consumeN (IterState.new cs) n).position.line = 1 + countNewlines (cs.take n) ∧
    (consumeN (IterState.new cs) n).position.column = 1 + sinceLastNewline (cs.take n) := by
  have hs : consumeN (IterState.new cs) n
      = ⟨cs.drop n, (cs.take n).foldl advanceChar Position.start, none⟩ :=
    consumeN_spec n cs Position.start h
  rw [hs]
  refine ⟨rfl, ?_, ?_, ?_⟩
  · rw [foldl_advance_offset]
    simp [Position.start]
    omega
  · rw [foldl_advance_line]
    rfl
  · rw [foldl_advance_column]
    show (cs.take n).foldl (fun col c => if c = '\n' then 1 else col + 1) (0 + 1)
        = 1 + sinceLastNewline (cs.take n)
    rw [foldl_column_shift]
    simp [sinceLastNewline]
    omega

/-- Witness for `position_tracking_invariant` at the concrete input
`ab`, newline, `cd`, fully consumed. -/
theorem c10_witness :
    5 ≤ "ab\ncd".toList.length ∧
    ((consumeN (IterState.new "ab\ncd".toList) 5).peeked = none ∧
     (consumeN (IterState.new "ab\ncd".toList) 5).position.offset = 5 ∧
     (consumeN (IterState.new "ab\ncd".toList) 5).position.line
        = 1 + countNewlines ("ab\ncd".toList.take 5) ∧
     (consumeN (IterState.new "ab\ncd".toList) 5).position.column
        = 1 + sinceLastNewline ("ab\ncd".toList.take 5)) :=
  ⟨by decide, position_tracking_invariant "ab\ncd".toList 5 (by decide)⟩

/-- Claim C7, evaluated at the failing input: reading the literal
`"a\nb"` decodes the escape but keeps the opening backslash, yielding the
four characters a, backslash, newline, b rather than the three the claim
states; an unrecognized escape even yields two backslashes; the
unterminated-string half of the claim does hold (`MissingEndDelimiter`). -/
theorem c7_escape_keeps_backslash :
    rdsResult ['a', '\\', 'n', 'b', '"'] = some (String.mk ['a', '\\', '\n', 'b']) ∧
    (String.mk ['a', '\\', '\n', 'b']).length = 4 ∧
    String.mk ['a', '\\', '\n', 'b'] ≠ String.mk ['a', '\n', 'b'] ∧
    rdsResult ['\\', 'q', '"'] = some (String.mk ['\\', '\\', 'q']) ∧
    rdsError ['a', 'b'] = some (.missingEndDelimiter '"') :=
  ⟨by decide, by decide, by decide, by decide, by decide⟩

/-- Claim C8, evaluated at the failing input: at end of input the
tokenizer's `next` returns `Ok(Token::EOF)` — not an `EOF` error — so
`skip_until_token(Semi)` never exits its loop: no amount of loop fuel
makes it return at all. -/
theorem c8_skip_until_diverges_at_eof :
    (∀ fuel, skipUntilF fuel .semi (Tokenizer.new []) = none) ∧
    (∀ fuel, tokNextF (fuel + 1) (Tokenizer.new [])
        = some (.ok (.eof, Tokenizer.new []))) := by
  constructor
  · intro fuel
    induction fuel with
    | zero => rfl
    | succ f ih =>
      have hnext : tokNextF (f + 1) (Tokenizer.new [])
          = some (.ok (.eof, Tokenizer.new [])) := rfl
      simp [skipUntilF, hnext, ih]
  · intro fuel
    rfl

/-- Claim C4 (amended): `parse_import` discards the `public` marker — when
the next token is `public` followed by a quoted path, the parse result is
the same as if parsing had started directly at the path token, so public
and internal imports produce identical namespace fragments and no
downstream resolution can distinguish them. -/
theorem parse_import_ignores_public_marker (fuel : Nat) (fp : FileParser)
    (tk1 tk2 : Tokenizer) (s : String)
    (h1 : tokNextF fuel fp.tokenizer = some (.ok (.publicKw, tk1)))
    (h2 : tokNextF fuel tk1 = some (.ok (.string s, tk2))) :
    parseImportF fuel fp = parseImportF fuel { tokenizer := tk1, ns := fp.ns } := by
  simp [parseImportF, h1, h2, Token.asQuotedString]

/-- Witness for `parse_import_ignores_public_marker` at the concrete
input `public "b.proto";`. -/
theorem c4_witness :
    tokNextF 28 c4fp.tokenizer = some (.ok (.publicKw, c4tk1)) ∧
    tokNextF 28 c4tk1 = some (.ok (.string "b.proto", c4tk2)) ∧
    parseImportF 28 c4fp = parseImportF 28 { tokenizer := c4tk1, ns := c4fp.ns } :=
  ⟨rfl, rfl,
    parse_import_ignores_public_marker 28 c4fp c4tk1 c4tk2 "b.proto" rfl rfl⟩

/-- Counterexample to claim C4 as stated: parsing `import public
"b.proto";` and `import "b.proto";` produces identical namespace
fragments — the import is recorded as the bare path string either way (and
the namespace's import set is the only thing `parse_import` writes), so a
file C's resolution of `pkg.B.Msg` cannot differ between the public and
the internal scenario, and no `UnresolvedField` error exists to fail
with. -/
theorem c4_counterexample :
    importResult " public \"b.proto\";" = some ["b.proto"] ∧
    importResult " \"b.proto\";" = some ["b.proto"] :=
  ⟨by decide, by decide⟩

/-- A successful association-list lookup means the key is among the keys. -/
theorem assocGet_some_mem {α : Type} {l : List (String × α)} {k : String} {v : α}
    (h : assocGet l k = some v) : k ∈ l.map Prod.fst := by
  induction l with
  | nil => simp [assocGet] at h
  | cons kv rest ih =>
    by_cases hk : kv.1 = k
    · simp [hk]
    · simp only [assocGet, if_neg hk] at h
      simp [ih h]

/-- Growing the parsed set cannot grow the unparsed count. -/
theorem numUnparsed_le_of_append (fs : FileSys) (st st' : ParserSt) (ext : List String)
    (h : st'.parsedFiles = st.parsedFiles ++ ext) :
    numUnparsed fs st' ≤ numUnparsed fs st := by
  unfold numUnparsed
  apply List.Sublist.length_le
  apply List.monotone_filter_right
  intro p hp
  simp only [decide_eq_true_eq] at hp ⊢
  intro hmem
  exact hp (h ▸ List.mem_append_left _ hmem)

/-- Recording a path that the file system contains and that was not yet
parsed strictly shrinks the unparsed count. -/
theorem numUnparsed_lt_of_insert (fs : FileSys) (st : ParserSt) (file : String)
    {v : Except ParseError Namespace}
    (hget : assocGet fs file = some v) (hmem : file ∉ st.parsedFiles) :
    numUnparsed fs { st with parsedFiles := st.parsedFiles ++ [file] } < numUnparsed fs st := by
  unfold numUnparsed
  have hsub : List.Sublist
      ((fs.map Prod.fst).filter (fun p => ¬ (p ∈ st.parsedFiles ++ [file])))
      ((fs.map Prod.fst).filter (fun p => ¬ (p ∈ st.parsedFiles))) := by
    apply List.monotone_filter_right
    intro p hp
    simp only [decide_eq_true_eq, List.mem_append] at hp ⊢
    intro hx
    exact hp (Or.inl hx)
  have hin : file ∈ (fs.map Prod.fst).filter (fun p => ¬ (p ∈ st.parsedFiles)) := by
    simp only [List.mem_filter, decide_eq_true_eq]
    exact ⟨assocGet_some_mem hget, hmem⟩
  have hout : file ∉ (fs.map Prod.fst).filter (fun p => ¬ (p ∈ st.parsedFiles ++ [file])) := by
    simp [List.mem_filter]
  by_contra hge
  push_neg at hge
  have heq := hsub.eq_of_length (Nat.le_antisymm hsub.length_le (by simpa using hge))
  rw [heq] at hout
  exact hout hin


theorem driverInv_trivial (st : ParserSt) : driverInv st (.ok st) [] := by
  refine ⟨List.nodup_nil, by simp, ?_⟩
  intro st' hok
  cases hok
  exact ⟨⟨[], by simp⟩, by simp⟩

theorem driverInv_error (st : ParserSt) (e : ParseFileError) (reads : List String)
    (hnd : reads.Nodup) (hdisj : ∀ p ∈ reads, p ∉ st.parsedFiles) :
    driverInv st (.error e) reads := by
  refine ⟨hnd, hdisj, ?_⟩
  intro st' hok
  cases hok

theorem parse_invariants (fs : FileSys) :
    ∀ fuel : Nat,
      (∀ st file res reads, parseFileF fs fuel st file = some (res, reads) → driverInv st res reads) ∧
      (∀ st l res reads, parseImportsF fs fuel st l = some (res, reads) → driverInv st res reads) := by
  intro fuel
  induction fuel with
  | zero =>
    constructor
    · intro st file res reads h
      simp [parseFileF] at h
    · intro st l res reads h
      cases l with
      | nil =>
        rw [parseImportsF] at h
        injection h with h
        injection h with h1 h2
        subst h1; subst h2
        exact driverInv_trivial st
      | cons imp rest =>
        rw [parseImportsF, parseFileF] at h
        simp at h
  | succ f ih =>
    obtain ⟨ihF, ihI⟩ := ih
    have hF : ∀ st file res reads,
        parseFileF fs (f + 1) st file = some (res, reads) → driverInv st res reads := by
      intro st file res reads h
      rw [parseFileF] at h
      by_cases hmem : file ∈ st.parsedFiles
      · simp only [hmem, if_true, reduceIte] at h
        injection h with h
        injection h with h1 h2
        subst h1; subst h2
        exact driverInv_trivial st
      · simp only [hmem, if_false, reduceIte] at h
        cases hget : assocGet fs file with
        | none =>
          rw [hget] at h
          injection h with h
          injection h with h1 h2
          subst h1; subst h2
          exact driverInv_error st _ _ (by simp) (by simpa using hmem)
        | some v =>
          rw [hget] at h
          cases v with
          | error e =>
            injection h with h
            injection h with h1 h2
            subst h1; subst h2
            exact driverInv_error st _ _ (by simp) (by simpa using hmem)
          | ok ns =>
            dsimp only [] at h
            cases himp : parseImportsF fs f { st with parsedFiles := st.parsedFiles ++ [file] } ns.imports with
            | none => rw [himp] at h; exact absurd h (by simp)
            | some pr =>
              obtain ⟨res2, reads2⟩ := pr
              rw [himp] at h
              have hinv := ihI _ ns.imports res2 reads2 himp
              obtain ⟨hnd2, hdisj2, hok2⟩ := hinv
              have hfile_st1 : file ∈ ({ st with parsedFiles := st.parsedFiles ++ [file] } : ParserSt).parsedFiles := by simp
              have hfile_not2 : file ∉ reads2 := fun hin => hdisj2 file hin hfile_st1
              have hdisj_st : ∀ p ∈ reads2, p ∉ st.parsedFiles := by
                intro p hp hmem2
                exact hdisj2 p hp (by simp [hmem2])
              cases res2 with
              | error e =>
                injection h with h
                injection h with h1 h2
                subst h1; subst h2
                refine driverInv_error st _ _ ?_ ?_
                · exact List.nodup_cons.mpr ⟨hfile_not2, hnd2⟩
                · intro p hp
                  rcases List.mem_cons.mp hp with rfl | hp2
                  · exact hmem
                  · exact hdisj_st p hp2
              | ok st2 =>
                injection h with h
                injection h with h1 h2
                subst h1; subst h2
                obtain ⟨⟨ext, hext⟩, hmem2⟩ := hok2 st2 rfl
                simp only at hext
                refine ⟨List.nodup_cons.mpr ⟨hfile_not2, hnd2⟩, ?_, ?_⟩
                · intro p hp
                  rcases List.mem_cons.mp hp with rfl | hp2
                  · exact hmem
                  · exact hdisj_st p hp2
                · intro st3 hok
                  injection hok with hok
                  subst hok
                  constructor
                  · refine ⟨[file] ++ ext, ?_⟩
                    simp only []
                    rw [hext]
                    simp
                  · intro p hp
                    simp only []
                    rcases List.mem_cons.mp hp with rfl | hp2
                    · rw [hext]; simp
                    · exact hmem2 p hp2
    have hI : ∀ st l res reads,
        parseImportsF fs (f + 1) st l = some (res, reads) → driverInv st res reads := by
      intro st l
      induction l generalizing st with
      | nil =>
        intro res reads h
        rw [parseImportsF] at h
        injection h with h
        injection h with h1 h2
        subst h1; subst h2
        exact driverInv_trivial st
      | cons imp rest ihl =>
        intro res reads h
        rw [parseImportsF] at h
        cases hfirst : parseFileF fs (f + 1) st (st.rootDir ++ imp) with
        | none => rw [hfirst] at h; exact absurd h (by simp)
        | some pr =>
          obtain ⟨res1, reads1⟩ := pr
          rw [hfirst] at h
          cases res1 with
          | error e =>
            injection h with h
            injection h with h1 h2
            subst h1; subst h2
            have hinv1 := hF st _ _ _ hfirst
            exact driverInv_error st _ _ hinv1.1 hinv1.2.1
          | ok st' =>
            dsimp only [] at h
            cases hrest : parseImportsF fs (f + 1) st' rest with
            | none => rw [hrest] at h; exact absurd h (by simp)
            | some pr2 =>
              obtain ⟨res2, reads2⟩ := pr2
              rw [hrest] at h
              injection h with h
              injection h with h1 h2
              subst h1; subst h2
              have hinv1 := hF st _ _ _ hfirst
              have hinv2 := ihl st' res2 reads2 hrest
              obtain ⟨hnd1, hdisj1, hok1⟩ := hinv1
              obtain ⟨⟨ext1, hext1⟩, hmemr1⟩ := hok1 st' rfl
              obtain ⟨hnd2, hdisj2, hok2⟩ := hinv2
              refine ⟨?_, ?_, ?_⟩
              · refine List.Nodup.append hnd1 hnd2 ?_
                intro p hp1 hp2
                exact hdisj2 p hp2 (hmemr1 p hp1)
              · intro p hp
                rcases List.mem_append.mp hp with hp1 | hp2
                · exact hdisj1 p hp1
                · intro hmem
                  exact hdisj2 p hp2 (hext1 ▸ List.mem_append_left _ hmem)
              · intro st2 hok
                obtain ⟨⟨ext2, hext2⟩, hmemr2⟩ := hok2 st2 hok
                constructor
                · refine ⟨ext1 ++ ext2, ?_⟩
                  rw [hext2, hext1, List.append_assoc]
                · intro p hp
                  rcases List.mem_append.mp hp with hp1 | hp2
                  · rw [hext2]
                    exact List.mem_append_left _ (hmemr1 p hp1)
                  · exact hmemr2 p hp2
    exact ⟨hF, hI⟩


theorem parse_terminates (fs : FileSys) :
    ∀ fuel : Nat,
      (∀ st file, numUnparsed fs st < fuel → parseFileF fs fuel st file ≠ none) ∧
      (∀ st l, numUnparsed fs st < fuel → parseImportsF fs fuel st l ≠ none) := by
  intro fuel
  induction fuel with
  | zero =>
    constructor
    · intro st file h
      exact absurd h (Nat.not_lt_zero _)
    · intro st l h
      exact absurd h (Nat.not_lt_zero _)
  | succ f ih =>
    obtain ⟨ihF, ihI⟩ := ih
    have hF : ∀ st file, numUnparsed fs st < f + 1 → parseFileF fs (f + 1) st file ≠ none := by
      intro st file hlt
      rw [parseFileF]
      by_cases hmem : file ∈ st.parsedFiles
      · simp [hmem]
      · simp only [hmem, if_false, reduceIte]
        cases hget : assocGet fs file with
        | none => simp
        | some v =>
          cases v with
          | error e => simp
          | ok ns =>
            have hdec := numUnparsed_lt_of_insert fs st file hget hmem
            have hne := ihI { st with parsedFiles := st.parsedFiles ++ [file] } ns.imports
              (by omega)
            cases himp : parseImportsF fs f { st with parsedFiles := st.parsedFiles ++ [file] } ns.imports with
            | none => exact absurd himp hne
            | some pr =>
              obtain ⟨res2, reads2⟩ := pr
              cases res2 <;> simp [himp]
    have hI : ∀ st l, numUnparsed fs st < f + 1 → parseImportsF fs (f + 1) st l ≠ none := by
      intro st l
      induction l generalizing st with
      | nil =>
        intro hlt
        rw [parseImportsF]
        simp
      | cons imp rest ihl =>
        intro hlt
        rw [parseImportsF]
        cases hfirst : parseFileF fs (f + 1) st (st.rootDir ++ imp) with
        | none => exact absurd hfirst (hF st _ hlt)
        | some pr =>
          obtain ⟨res1, reads1⟩ := pr
          cases res1 with
          | error e => simp
          | ok st' =>
            have hinv1 := ((parse_invariants fs (f + 1)).1 st _ _ _ hfirst)
            obtain ⟨⟨ext1, hext1⟩, _⟩ := hinv1.2.2 st' rfl
            have hle := numUnparsed_le_of_append fs st st' ext1 hext1
            have hne2 := ihl st' (by omega)
            cases hrest : parseImportsF fs (f + 1) st' rest with
            | none => exact absurd hrest hne2
            | some pr2 => simp [hrest]
    exact ⟨hF, hI⟩

/-- A successful `parse_file` always ends with the requested path in the
parsed set (it is recorded before the imports are processed and never
removed). -/
theorem parseFileF_ok_mem (fs : FileSys) (fuel : Nat) (st : ParserSt) (file : String)
    (st' : ParserSt) (reads : List String)
    (h : parseFileF fs fuel st file = some (.ok st', reads)) :
    file ∈ st'.parsedFiles := by
  cases fuel with
  | zero => rw [parseFileF] at h; exact absurd h (by simp)
  | succ f =>
    rw [parseFileF] at h
    by_cases hmem : file ∈ st.parsedFiles
    · simp only [hmem, if_true, reduceIte] at h
      injection h with h
      injection h with h1 h2
      cases h1
      exact hmem
    · simp only [hmem, if_false, reduceIte] at h
      cases hget : assocGet fs file with
      | none =>
        rw [hget] at h
        injection h with h
        injection h with h1 h2
        cases h1
      | some v =>
        rw [hget] at h
        cases v with
        | error e =>
          injection h with h
          injection h with h1 h2
          cases h1
        | ok ns =>
          dsimp only [] at h
          cases himp : parseImportsF fs f { st with parsedFiles := st.parsedFiles ++ [file] } ns.imports with
          | none => rw [himp] at h; exact absurd h (by simp)
          | some pr =>
            obtain ⟨res2, reads2⟩ := pr
            rw [himp] at h
            cases res2 with
            | error e =>
              injection h with h
              injection h with h1 h2
              cases h1
            | ok st2 =>
              injection h with h
              injection h with h1 h2
              have hinv := (parse_invariants fs f).2 _ ns.imports _ _ himp
              obtain ⟨⟨ext, hext⟩, _⟩ := hinv.2.2 st2 rfl
              have : file ∈ st2.parsedFiles := by
                rw [hext]; simp
              cases h1
              simpa using this

/-- Claim C9: for every file system (cyclic and diamond import graphs
included) and enough fuel (one more than the unparsed-path count), the
driver's parse_file returns (never exhausts the fuel); a call on an
already-parsed path returns the state unchanged with no read at all; and
every run reads each path at most once, none of them already parsed, with
the requested path recorded as parsed in the resulting state. -/
theorem parse_file_memoized_and_terminates (fs : FileSys) (st : ParserSt) (file : String)
    (fuel : Nat) (h : numUnparsed fs st < fuel) :
    (file ∈ st.parsedFiles → parseFileF fs fuel st file = some (.ok st, [])) ∧
    parseFileF fs fuel st file ≠ none ∧
    (∀ res reads, parseFileF fs fuel st file = some (res, reads) →
      reads.Nodup ∧ (∀ p ∈ reads, p ∉ st.parsedFiles) ∧
      ∀ st', res = .ok st' → file ∈ st'.parsedFiles) := by
  refine ⟨?_, (parse_terminates fs fuel).1 st file h, ?_⟩
  · intro hmem
    cases fuel with
    | zero => exact absurd h (Nat.not_lt_zero _)
    | succ f =>
      rw [parseFileF]
      simp [hmem]
  · intro res reads hres
    have hinv := (parse_invariants fs fuel).1 st file res reads hres
    refine ⟨hinv.1, hinv.2.1, ?_⟩
    intro st' hok
    subst hok
    exact parseFileF_ok_mem fs fuel st file st' reads hres

/-- Witness for `parse_file_memoized_and_terminates` on the cyclic
two-file fixture `fsAB` (a.proto imports b.proto imports a.proto). -/
theorem c9_witness :
    numUnparsed fsAB (ParserSt.new "" []) < 3 ∧
    (("a.proto" ∈ (ParserSt.new "" []).parsedFiles →
        parseFileF fsAB 3 (ParserSt.new "" []) "a.proto" = some (.ok (ParserSt.new "" []), [])) ∧
     parseFileF fsAB 3 (ParserSt.new "" []) "a.proto" ≠ none ∧
     (∀ res reads, parseFileF fsAB 3 (ParserSt.new "" []) "a.proto" = some (res, reads) →
        reads.Nodup ∧ (∀ p ∈ reads, p ∉ (ParserSt.new "" []).parsedFiles) ∧
        ∀ st', res = .ok st' → "a.proto" ∈ st'.parsedFiles)) :=
  ⟨by decide, parse_file_memoized_and_terminates fsAB (ParserSt.new "" []) "a.proto" 3 (by decide)⟩

end Pbjs
